import Mathlib

/-!
Shallow embedding of the BugDB storage layer (src/src/main.rs) in Lean 4.

Rust machine integers (`usize`, `i64`, `u32`) are modelled as `Nat`/`Int`
with explicit reductions modulo `2 ^ w` where overflow can occur.  Byte
buffers (`Vec<u8>`, `&[u8]`) are `List Nat` whose elements are byte values.
Rust strings are modelled by their UTF-8 byte sequences (`String::len` is
the byte length, `String::as_bytes` the byte list; `String::from_utf8_lossy`
is the identity on valid UTF-8, which is all the theorems below use).
Fallible operations return `Except DbError`; a Rust panic (index or slice
out of range, division or remainder by zero) is modelled by the
`DbError.panic` error, and `Option` results mirror the Rust `Option`.
-/

set_option maxRecDepth 8000

deriving instance DecidableEq for Except

namespace BugDB

/-- Constant `PAGE_SIZE` from main.rs line 12. -/
def PAGE_SIZE : Nat := 4096

/-- Constant `TABLE_MAX_PAGES` from main.rs line 13. -/
def TABLE_MAX_PAGES : Nat := 100

/-- Value of `std::mem::size_of::<Value>()` used by `Table::row_size`
(main.rs line 148): on the reference 64-bit platform `Value` is an enum of
`Integer(i64)` and `Text(String)`; `String` is 24 bytes and the
discriminant is stored in the `String` pointer niche, so the enum is 24
bytes. -/
def valueSize : Nat := 24

/-- Model of `sql_parser::Value` (sql_parser.rs lines 9-12): a 64-bit
signed integer or a text string, the latter modelled by its UTF-8 bytes. -/
inductive Value where
  | integer (i : Int)
  | text (bytes : List Nat)
deriving DecidableEq, Repr

/-- Error kinds the storage layer can produce.  `pageOutOfBounds` is the
`io::Error` built at main.rs lines 100-103, `unexpectedEof` the one at
lines 120-123; `panic` models a Rust panic (out-of-range slice or index,
division/remainder by zero), which is not a returned error in Rust but is
made explicit here so that every operation is total. -/
inductive DbError where
  | pageOutOfBounds
  | unexpectedEof
  | panic
deriving DecidableEq, Repr

/-- Little-endian byte encoding of `u` on `w` bytes (models
`to_le_bytes` after the appropriate truncation). -/
def natToLe : Nat → Nat → List Nat
  | 0, _ => []
  | w + 1, u => u % 256 :: natToLe w (u / 256)

/-- Little-endian byte decoding (models `from_le_bytes`). -/
def leToNat (bytes : List Nat) : Nat :=
  bytes.foldr (fun b acc => b + 256 * acc) 0

/-- Reinterpret an unsigned 64-bit value as an `i64` (two's complement). -/
def toI64 (u : Nat) : Int :=
  if u < 2 ^ 63 then (u : Int) else (u : Int) - 2 ^ 64

/-- The 8 little-endian bytes of `i` as an `i64`
(models `i64::to_le_bytes`). -/
def i64ToLe (i : Int) : List Nat :=
  natToLe 8 (i.emod (2 ^ 64)).toNat

/-- One iteration of the loop body of `Table::serialize_row` (main.rs
lines 216-223): the bytes appended for one column whose looked-up value is
the argument.  An integer contributes its 8 little-endian bytes, a text
value a 4-byte little-endian length prefix (`s.len() as u32`) followed by
the raw bytes, and a missing value 8 zero bytes. -/
def serializeValue : Option Value → List Nat
  | some (.integer i) => i64ToLe i
  | some (.text s) => natToLe 4 (s.length % 2 ^ 32) ++ s
  | none => List.replicate 8 0

/-- Model of `Table::serialize_row` (main.rs lines 213-226).  A row is
given as the list `row.values.get(column)` for each schema column in
order, which is exactly the data `serialize_row` consumes (the `HashMap`
lookups for the distinct column names of the schema). -/
def serializeRow (row : List (Option Value)) : List Nat :=
  (row.map serializeValue).flatten

/-- Model of `Table::deserialize_value` (main.rs lines 228-238).  A buffer
of at least 8 bytes is read as an integer from its first 8 bytes.
Otherwise the first 4 bytes are read as a length prefix and
`&buffer[4..4 + len]` is taken as the text bytes; the Rust indexings
`buffer[0]..buffer[3]` and the slice `&buffer[4..4 + len]` panic when they
reach past the buffer, which is the `none` result here. -/
def deserializeValue (buffer : List Nat) : Option Value :=
  if 8 ≤ buffer.length then
    some (.integer (toI64 (leToNat (buffer.take 8))))
  else if buffer.length < 4 then
    none
  else
    let len := leToNat (buffer.take 4)
    if 4 + len ≤ buffer.length then
      some (.text ((buffer.drop 4).take len))
    else
      none

/-- Decoding of columns `i, i + 1, ..., i + k - 1` by the loop of
`Table::row_slot` (main.rs lines 183-187): column `i` is decoded from
`&page[byte_offset + i * size_of::<Value>() ..]`.  A slice starting past
the end of the page is a Rust panic (`none`). -/
def deserializeFrom (page : List Nat) (byteOffset : Nat) : Nat → Nat → Option (List Value)
  | _, 0 => some []
  | i, k + 1 =>
    match (if byteOffset + i * valueSize ≤ page.length then
        deserializeValue (page.drop (byteOffset + i * valueSize)) else none) with
    | none => none
    | some v =>
      match deserializeFrom page byteOffset (i + 1) k with
      | none => none
      | some vs => some (v :: vs)

/-- The per-column decoding loop of `Table::row_slot` (main.rs lines
183-187) applied to a page buffer, for all `ncols` columns. -/
def deserializeRowFromPage (page : List Nat) (byteOffset ncols : Nat) :
    Option (List Value) :=
  deserializeFrom page byteOffset 0 ncols

/-- Model of `Pager` (main.rs lines 21-25).  The backing file's bytes are
carried explicitly (`file`); `fileLength` is the `file_length` field, set
from the file metadata at open time and updated by `flush`. -/
structure Pager where
  file : List Nat
  pages : List (Option (List Nat))
  fileLength : Nat
deriving DecidableEq, Repr

/-- Model of `Table` (main.rs lines 27-31). -/
structure Table where
  pager : Pager
  numRows : Nat
  columns : List String
deriving DecidableEq, Repr

/-- Model of `Pager::new` (main.rs lines 64-78) on a file whose current
contents are `file` (an empty list for a freshly created file). -/
def Pager.new (file : List Nat) : Pager :=
  { file := file
    pages := List.replicate TABLE_MAX_PAGES none
    fileLength := file.length }

/-- Overwrite `file` at byte `offset` with `data`: the effect of seeking
to `offset` and calling `write_all(data)`.  A seek past end of file
zero-fills the gap on write. -/
def writeAt (file : List Nat) (offset : Nat) (data : List Nat) : List Nat :=
  let padded := file ++ List.replicate (offset - file.length) 0
  padded.take offset ++ data ++ padded.drop (offset + data.length)

/-- Effect of `file.set_len(n)`: the file becomes exactly `n` bytes,
truncating or zero-extending. -/
def setLen (file : List Nat) (n : Nat) : List Nat :=
  file.take n ++ List.replicate (n - file.length) 0

/-- Model of `Pager::flush` (main.rs lines 80-96).  A non-resident page is
silently skipped.  The Rust indexing `self.pages[page_num]` and the slice
`&page[..size]` panic when out of range.  `end_of_write` is
`page_num * PAGE_SIZE + size`; `file_length` is updated and `set_len`
called exactly when the write ends past the recorded file length. -/
def flushP (pager : Pager) (pageNum size : Nat) : Except DbError Pager :=
  if pager.pages.length ≤ pageNum then .error .panic
  else
    match pager.pages.getD pageNum none with
    | none => .ok pager
    | some page =>
      if page.length < size then .error .panic
      else if pager.fileLength < pageNum * PAGE_SIZE + size then
        .ok { pager with
          file := setLen (writeAt pager.file (pageNum * PAGE_SIZE) (page.take size))
            (pageNum * PAGE_SIZE + size)
          fileLength := pageNum * PAGE_SIZE + size }
      else
        .ok { pager with
          file := writeAt pager.file (pageNum * PAGE_SIZE) (page.take size) }

/-- The bytes `read` places into a fresh page buffer when page `pageNum`
is loaded (main.rs lines 113-115): the file's bytes from offset
`pageNum * PAGE_SIZE`, at most `PAGE_SIZE` of them. -/
def readData (file : List Nat) (pageNum : Nat) : List Nat :=
  (file.drop (pageNum * PAGE_SIZE)).take PAGE_SIZE

/-- The page-load logic of `Pager::get_page` for a non-resident page
(main.rs lines 107-127).  `numPages` below is
`ceil(file_length / PAGE_SIZE)` (the `f64` ceiling of the source, exact
for any realistic length).  A page inside the file is the zero-initialized
`PAGE_SIZE` buffer overwritten by the bytes read, truncated to the bytes
read when it is a short final page; a short read on a non-final page is
the `UnexpectedEof` error; a page beyond the file is all zeros. -/
def loadPage (file : List Nat) (fileLength pageNum : Nat) : Except DbError (List Nat) :=
  if pageNum < (fileLength + PAGE_SIZE - 1) / PAGE_SIZE then
    if (readData file pageNum).length < PAGE_SIZE then
      if pageNum = (fileLength + PAGE_SIZE - 1) / PAGE_SIZE - 1 then
        .ok ((readData file pageNum ++
          List.replicate (PAGE_SIZE - (readData file pageNum).length) 0).take
            (readData file pageNum).length)
      else .error .unexpectedEof
    else .ok (readData file pageNum ++
      List.replicate (PAGE_SIZE - (readData file pageNum).length) 0)
  else .ok (List.replicate PAGE_SIZE 0)

/-- Model of `Pager::get_page` (main.rs lines 98-133).  Returns the page's
buffer together with the pager whose cache now holds it. -/
def getPage (pager : Pager) (pageNum : Nat) : Except DbError (List Nat × Pager) :=
  if TABLE_MAX_PAGES ≤ pageNum then .error .pageOutOfBounds
  else
    match pager.pages.getD pageNum none with
    | some page => .ok (page, pager)
    | none =>
      match loadPage pager.file pager.fileLength pageNum with
      | .error e => .error e
      | .ok page =>
        .ok (page, { pager with pages := pager.pages.set pageNum (some page) })

/-- Model of `Table::row_size` (main.rs lines 147-149):
`columns.len() * std::mem::size_of::<Value>()`. -/
def rowSize (columns : List String) : Nat :=
  columns.length * valueSize

/-- Model of `Table::new` (main.rs lines 137-145) on a backing file whose
bytes are `file`.  (For an empty `columns` list the Rust division
`file_length / 0` panics; the theorems below only use nonempty schemas.) -/
def Table.new (file : List Nat) (columns : List String) : Table :=
  { pager := Pager.new file
    numRows := file.length / rowSize columns
    columns := columns }

/-- Page index computed for a row by `Table::row_slot` (main.rs line 173)
and `Table::insert` (line 194): `row_num * row_size / PAGE_SIZE`. -/
def rowPageNum (rs rowNum : Nat) : Nat :=
  rowNum * rs / PAGE_SIZE

/-- Byte offset inside the page computed by `Table::row_slot` (main.rs
lines 174-175) and `Table::insert` (lines 195-196):
`(row_num % (PAGE_SIZE / row_size)) * row_size`. -/
def rowByteOffset (rs rowNum : Nat) : Nat :=
  rowNum % (PAGE_SIZE / rs) * rs

/-- Model of `Table::row_slot` (main.rs lines 171-190).  Returns the
optional decoded row together with the table (whose page cache `get_page`
may have populated).  The Rust remainder `row_num % (PAGE_SIZE / row_size)`
panics when `PAGE_SIZE / row_size` is zero. -/
def rowSlot (t : Table) (rowNum : Nat) : Except DbError (Option (List Value) × Table) :=
  if PAGE_SIZE / rowSize t.columns = 0 then .error .panic
  else
    match getPage t.pager (rowPageNum (rowSize t.columns) rowNum) with
    | .error e => .error e
    | .ok (page, pager1) =>
      if page.length ≤ rowByteOffset (rowSize t.columns) rowNum then
        .ok (none, { t with pager := pager1 })
      else
        match deserializeRowFromPage page
            (rowByteOffset (rowSize t.columns) rowNum) t.columns.length with
        | none => .error .panic
        | some vals => .ok (some vals, { t with pager := pager1 })

/-- Growing of the in-memory page buffer when the target slot reaches past
its current length (main.rs lines 199-201): `page.resize(n, 0)` for a
vector shorter than `n` appends zeros (`resize` is only ever called here
to grow). -/
def resizeTo (page : List Nat) (n : Nat) : List Nat :=
  if page.length < n then page ++ List.replicate (n - page.length) 0 else page

/-- Overwriting of the slot `page[offset .. offset + data.len()]` with
`data` (`copy_from_slice`, main.rs line 205). -/
def spliceAt (page : List Nat) (offset : Nat) (data : List Nat) : List Nat :=
  page.take offset ++ data ++ page.drop (offset + data.length)

/-- The page buffer after `Table::insert` has grown it to cover the slot
and copied the serialized row into the slot (main.rs lines 199-205). -/
def insertIntoPage (page : List Nat) (byteOffset : Nat) (serialized : List Nat) :
    List Nat :=
  spliceAt (resizeTo page (byteOffset + serialized.length)) byteOffset serialized

/-- Model of `Table::insert` (main.rs lines 192-211).  The row size used
for slot arithmetic is the length of this row's own serialization (line
193), so the slot position depends on the row being inserted.  After the
page is obtained and mutated in the cache, `num_rows` is incremented and
exactly the bytes up to the end of the slot are flushed
(`byte_offset + row_size`). -/
def insert (t : Table) (row : List (Option Value)) : Except DbError Table :=
  if PAGE_SIZE / (serializeRow row).length = 0 then .error .panic
  else
    match getPage t.pager (rowPageNum (serializeRow row).length t.numRows) with
    | .error e => .error e
    | .ok (page, pager1) =>
      match flushP
          { pager1 with
            pages := pager1.pages.set (rowPageNum (serializeRow row).length t.numRows)
              (some (insertIntoPage page
                (rowByteOffset (serializeRow row).length t.numRows)
                (serializeRow row))) }
          (rowPageNum (serializeRow row).length t.numRows)
          (rowByteOffset (serializeRow row).length t.numRows +
            (serializeRow row).length) with
      | .error e => .error e
      | .ok pager3 => .ok { t with pager := pager3, numRows := t.numRows + 1 }

/-- The loop `for i in 0..full_pages` of `Table::close` (main.rs lines
154-158): flush each resident page at full `PAGE_SIZE`, stopping at the
first error.  The Rust indexing `self.pager.pages[i]` panics when out of
range.  Returns the error (if any) together with the pager state reached,
since in Rust the flushes done before an error persist. -/
def flushFullPages (pager : Pager) : List Nat → Option DbError × Pager
  | [] => (none, pager)
  | i :: rest =>
    if pager.pages.length ≤ i then (some .panic, pager)
    else
      match pager.pages.getD i none with
      | none => flushFullPages pager rest
      | some _ =>
        match flushP pager i PAGE_SIZE with
        | .error e => (some e, pager)
        | .ok pager1 => flushFullPages pager1 rest

/-- Model of `Table::close` (main.rs lines 151-169): flush the full pages,
then flush the final partial page (if any resident) at exactly
`additional_rows * row_size` bytes.  Returns the error (if any) together
with the table state reached. -/
def closeTable (t : Table) : Option DbError × Table :=
  match flushFullPages t.pager
      (List.range (t.numRows * rowSize t.columns / PAGE_SIZE)) with
  | (some e, pager1) => (some e, { t with pager := pager1 })
  | (none, pager1) =>
    if PAGE_SIZE / rowSize t.columns = 0 then (some .panic, { t with pager := pager1 })
    else if t.numRows % (PAGE_SIZE / rowSize t.columns) = 0 then
      (none, { t with pager := pager1 })
    else if pager1.pages.length ≤ t.numRows * rowSize t.columns / PAGE_SIZE then
      (some .panic, { t with pager := pager1 })
    else
      match pager1.pages.getD (t.numRows * rowSize t.columns / PAGE_SIZE) none with
      | none => (none, { t with pager := pager1 })
      | some _ =>
        match flushP pager1 (t.numRows * rowSize t.columns / PAGE_SIZE)
            (t.numRows % (PAGE_SIZE / rowSize t.columns) * rowSize t.columns) with
        | .error e => (some e, { t with pager := pager1 })
        | .ok pager2 => (none, { t with pager := pager2 })

/-- Model of the `Cursor` fields `row_num` and `end_of_table` (main.rs
lines 15-19); the table itself is passed to each operation, mirroring the
`&mut Table` back-reference. -/
structure CursorState where
  rowNum : Nat
  endOfTable : Bool
deriving DecidableEq, Repr

/-- Model of `Cursor::table_start` (main.rs lines 34-42). -/
def cursorStart (t : Table) : CursorState :=
  { rowNum := 0, endOfTable := t.numRows == 0 }

/-- Model of `Cursor::advance` (main.rs lines 44-52) for a table with
`numRows` rows (the cursor's `&mut Table` borrow means `num_rows` cannot
change while it iterates). -/
def cursorAdvance (numRows : Nat) (c : CursorState) : CursorState :=
  let r := c.rowNum + 1
  { rowNum := r, endOfTable := if numRows ≤ r then true else c.endOfTable }

/-- Model of `Cursor::value` (main.rs lines 54-60). -/
def cursorValue (c : CursorState) (t : Table) :
    Except DbError (Option (List Value) × Table) :=
  if c.endOfTable then .ok (none, t) else rowSlot t c.rowNum

/-- Cursor states reachable from `Cursor::table_start` on a table with
`numRows` rows by any number of `advance` calls. -/
inductive CursorReach (numRows : Nat) : CursorState → Prop where
  | start : CursorReach numRows { rowNum := 0, endOfTable := numRows == 0 }
  | step {c : CursorState} : CursorReach numRows c →
      CursorReach numRows (cursorAdvance numRows c)

/-- The select loop of `execute_statement` (main.rs lines 321-330) walked
with explicit fuel: while the cursor is not at end, read `value()` and
collect the row (if any), then `advance`.  Since `advance` always
increments `row_num`, the loop runs at most `numRows` iterations, which is
the fuel `scan` supplies. -/
def scanAux : Nat → Table → CursorState → Except DbError (List (List Value) × Table)
  | 0, t, _ => .ok ([], t)
  | fuel + 1, t, c =>
    if c.endOfTable then .ok ([], t)
    else
      match cursorValue c t with
      | .error e => .error e
      | .ok (r, t1) =>
        match scanAux fuel t1 (cursorAdvance t1.numRows c) with
        | .error e => .error e
        | .ok (rows, t2) =>
          .ok ((match r with | some row => row :: rows | none => rows), t2)

/-- Full scan of a table: the select statement's cursor loop from
`Cursor::table_start`. -/
def scan (t : Table) : Except DbError (List (List Value) × Table) :=
  scanAux t.numRows t (cursorStart t)

/-! ## Helper lemmas -/

theorem natToLe_length (w u : Nat) : (natToLe w u).length = w := by
  induction w generalizing u with
  | zero => rfl
  | succ w ih => simp [natToLe, ih]

theorem writeAt_length (file : List Nat) (offset : Nat) (data : List Nat) :
    (writeAt file offset data).length = max file.length (offset + data.length) := by
  simp only [writeAt, List.length_append, List.length_take, List.length_drop,
    List.length_replicate]
  omega

theorem setLen_length (file : List Nat) (n : Nat) :
    (setLen file n).length = n := by
  simp only [setLen, List.length_append, List.length_take, List.length_replicate]
  omega

theorem readData_length (file : List Nat) (pageNum : Nat) :
    (readData file pageNum).length =
      min PAGE_SIZE (file.length - pageNum * PAGE_SIZE) := by
  simp [readData]

theorem getPage_preserves {pager : Pager} {pageNum : Nat} {page : List Nat}
    {pager2 : Pager} (h : getPage pager pageNum = .ok (page, pager2)) :
    pager2.file = pager.file ∧ pager2.fileLength = pager.fileLength ∧
      pager2.pages.length = pager.pages.length := by
  rw [getPage] at h
  split at h
  · exact absurd h (by simp)
  · split at h
    · obtain ⟨rfl, rfl⟩ := by simpa using h
      exact ⟨rfl, rfl, rfl⟩
    · split at h
      · exact absurd h (by simp)
      · obtain ⟨rfl, rfl⟩ := by simpa using h
        exact ⟨rfl, rfl, by simp⟩

theorem flushP_fileLength {pager : Pager} {pageNum size : Nat} {pager2 : Pager}
    (h : flushP pager pageNum size = .ok pager2) :
    pager.fileLength ≤ pager2.fileLength ∧ pager2.pages = pager.pages ∧
      (pager2.fileLength = pager.fileLength ∨
        pager2.fileLength = max pager.fileLength (pageNum * PAGE_SIZE + size)) := by
  rw [flushP] at h
  split at h
  · exact absurd h (by simp)
  · split at h
    · obtain rfl := by simpa using h
      exact ⟨le_refl _, rfl, .inl rfl⟩
    · split at h
      · exact absurd h (by simp)
      · split at h
        · next hext =>
          injection h with h2
          subst h2
          exact ⟨le_of_lt hext, rfl, .inr (by
            show pageNum * PAGE_SIZE + size = _
            omega)⟩
        · next hext =>
          injection h with h2
          subst h2
          exact ⟨le_refl _, rfl, .inl rfl⟩

theorem flushP_ok {pager : Pager} {pageNum size : Nat} {page : List Nat}
    (hidx : pageNum < pager.pages.length)
    (hres : pager.pages.getD pageNum none = some page)
    (hsz : size ≤ page.length) :
    ∃ pager2, flushP pager pageNum size = .ok pager2 ∧
      pager2.pages = pager.pages ∧
      pager2.fileLength = max pager.fileLength (pageNum * PAGE_SIZE + size) ∧
      (pager.file.length = pager.fileLength →
        pager2.file.length = pager2.fileLength) := by
  rw [flushP, if_neg (by omega)]
  simp only [hres]
  rw [if_neg (by omega : ¬page.length < size)]
  split
  · next hext =>
    refine ⟨_, rfl, rfl, ?_, ?_⟩
    · show pageNum * PAGE_SIZE + size = _
      omega
    · intro _
      show (setLen _ _).length = pageNum * PAGE_SIZE + size
      rw [setLen_length]
  · next hext =>
    refine ⟨_, rfl, rfl, ?_, ?_⟩
    · show pager.fileLength = _
      omega
    · intro hsync
      show (writeAt _ _ _).length = pager.fileLength
      rw [writeAt_length, List.length_take]
      omega

theorem loadPage_ok {file : List Nat} {fileLength pageNum : Nat}
    (hsync : file.length = fileLength) :
    ∃ page, loadPage file fileLength pageNum = .ok page := by
  have hP : PAGE_SIZE = 4096 := rfl
  rw [loadPage]
  split
  · next hnp =>
    split
    · next hshort =>
      rw [readData_length] at hshort
      have hlast : pageNum = (fileLength + PAGE_SIZE - 1) / PAGE_SIZE - 1 := by
        rw [hP] at hnp hshort
        rw [hP]
        omega
      rw [if_pos hlast]
      exact ⟨_, rfl⟩
    · exact ⟨_, rfl⟩
  · exact ⟨_, rfl⟩

theorem getPage_ok {pager : Pager} {pageNum : Nat}
    (hlen : pager.pages.length = TABLE_MAX_PAGES)
    (hsync : pager.file.length = pager.fileLength)
    (hp : pageNum < TABLE_MAX_PAGES) :
    ∃ page pager2, getPage pager pageNum = .ok (page, pager2) ∧
      pager2.file = pager.file ∧ pager2.fileLength = pager.fileLength ∧
      pager2.pages.length = TABLE_MAX_PAGES := by
  rw [getPage, if_neg (by omega)]
  cases hres : pager.pages.getD pageNum none with
  | some page => exact ⟨page, pager, rfl, rfl, rfl, hlen⟩
  | none =>
    obtain ⟨page, hload⟩ := @loadPage_ok pager.file pager.fileLength pageNum hsync
    rw [hload]
    exact ⟨page, _, rfl, rfl, rfl, by simp [hlen]⟩

theorem insertIntoPage_length {page : List Nat} {byteOffset : Nat}
    (serialized : List Nat) :
    (insertIntoPage page byteOffset serialized).length =
      max page.length (byteOffset + serialized.length) := by
  simp only [insertIntoPage, spliceAt, resizeTo, List.length_append,
    List.length_take, List.length_drop, List.length_replicate]
  split <;> (rename_i h; simp at h ⊢) <;> omega

/-- Success of one `Table::insert` call: when the target page index is
below `TABLE_MAX_PAGES` (and the row's serialization is nonempty and fits
in a page), the insert succeeds and increments `num_rows`, whatever the
values in the row. -/
theorem insert_ok {t : Table} {row : List (Option Value)}
    (hpages : t.pager.pages.length = TABLE_MAX_PAGES)
    (hsync : t.pager.file.length = t.pager.fileLength)
    (hpos : 0 < (serializeRow row).length)
    (hle : (serializeRow row).length ≤ PAGE_SIZE)
    (hpage : rowPageNum (serializeRow row).length t.numRows < TABLE_MAX_PAGES) :
    ∃ t2, insert t row = .ok t2 ∧ t2.numRows = t.numRows + 1 ∧
      t2.columns = t.columns ∧ t2.pager.pages.length = TABLE_MAX_PAGES ∧
      t2.pager.file.length = t2.pager.fileLength := by
  have hdiv : 0 < PAGE_SIZE / (serializeRow row).length :=
    Nat.div_pos hle hpos
  obtain ⟨page, pager1, hget, hfile1, hflen1, hplen1⟩ :=
    getPage_ok hpages hsync hpage
  rw [insert, if_neg (by omega)]
  simp only [hget]
  have hres : (pager1.pages.set (rowPageNum (serializeRow row).length t.numRows)
      (some (insertIntoPage page
        (rowByteOffset (serializeRow row).length t.numRows)
        (serializeRow row)))).getD
      (rowPageNum (serializeRow row).length t.numRows) none =
      some (insertIntoPage page
        (rowByteOffset (serializeRow row).length t.numRows)
        (serializeRow row)) := by
    have := List.getElem?_set_eq_of_lt
      (some (insertIntoPage page
        (rowByteOffset (serializeRow row).length t.numRows)
        (serializeRow row)))
      (l := pager1.pages) (n := rowPageNum (serializeRow row).length t.numRows)
      (by omega)
    simp [List.getD, this]
  obtain ⟨pager3, hflush, hpages3, hflen3, hsync3⟩ :=
    @flushP_ok { pager1 with
        pages := pager1.pages.set (rowPageNum (serializeRow row).length t.numRows)
          (some (insertIntoPage page
            (rowByteOffset (serializeRow row).length t.numRows)
            (serializeRow row))) }
      (rowPageNum (serializeRow row).length t.numRows)
      (rowByteOffset (serializeRow row).length t.numRows +
        (serializeRow row).length)
      (insertIntoPage page (rowByteOffset (serializeRow row).length t.numRows)
        (serializeRow row))
      (by simp only [List.length_set]; omega) hres
      (by rw [insertIntoPage_length]; omega)
  rw [hflush]
  refine ⟨_, rfl, rfl, rfl, ?_, ?_⟩
  · have : pager3.pages.length =
        (pager1.pages.set (rowPageNum (serializeRow row).length t.numRows)
          (some (insertIntoPage page
            (rowByteOffset (serializeRow row).length t.numRows)
            (serializeRow row)))).length := by rw [hpages3]
    simpa [List.length_set, hplen1] using this
  · exact hsync3 (by rw [hfile1, hflen1, hsync])

theorem getPage_oob {pager : Pager} {pageNum : Nat}
    (h : TABLE_MAX_PAGES ≤ pageNum) :
    getPage pager pageNum = .error .pageOutOfBounds := by
  rw [getPage, if_pos h]

/-- One-column integer row used by the capacity experiment. -/
def intRowOne : List (Option Value) := [some (Value.integer 1)]

/-- State after `n` calls of `Table::insert` with `intRowOne`, starting
from a freshly created table with schema `["a"]` and an empty backing
file. -/
def insertN : Nat → Except DbError Table
  | 0 => .ok (Table.new [] ["a"])
  | n + 1 =>
    match insertN n with
    | .error e => .error e
    | .ok t => insert t intRowOne

theorem intRowOne_size : (serializeRow intRowOne).length = 8 := by decide

theorem insertN_ok (n : Nat) (hn : n ≤ 51199) :
    ∃ t, insertN n = .ok t ∧ t.numRows = n ∧
      t.pager.pages.length = TABLE_MAX_PAGES ∧
      t.pager.file.length = t.pager.fileLength := by
  induction n with
  | zero => exact ⟨_, rfl, by decide, by decide, by decide⟩
  | succ n ih =>
    obtain ⟨t, hins, hnum, hpages, hsync⟩ := ih (by omega)
    have hpage : rowPageNum (serializeRow intRowOne).length t.numRows <
        TABLE_MAX_PAGES := by
      simp only [intRowOne_size, hnum, rowPageNum, PAGE_SIZE, TABLE_MAX_PAGES]
      omega
    obtain ⟨t2, h1, h2, _, h4, h5⟩ := insert_ok hpages hsync
      (by rw [intRowOne_size]; omega)
      (by simp only [intRowOne_size, PAGE_SIZE]; omega) hpage
    refine ⟨t2, ?_, by omega, h4, h5⟩
    show insertN (n + 1) = .ok t2
    simp only [insertN, hins, h1]

/-- C1.  The claim `decode(encode(r, S), S) == r` fails on the code: for
the one-column schema and the row supplying the text value `"abcd"`, the
encoding is the 8-byte buffer `[4,0,0,0,97,98,99,100]` (length prefix 4
then the UTF-8 bytes), and the decoding loop of `row_slot`, reading that
buffer, sees at least 8 bytes and therefore decodes it as the integer
7233733595238498308 instead of the text row.  The row conforms to the
spec's schema (a text value of 4 bytes, well within any of the spec's
slot capacities such as 32). -/
theorem roundTrip_fails_on_text :
    serializeRow [some (Value.text [97, 98, 99, 100])] =
      [4, 0, 0, 0, 97, 98, 99, 100] ∧
    deserializeRowFromPage
        (serializeRow [some (Value.text [97, 98, 99, 100])]) 0 1 =
      some [Value.integer 7233733595238498308] ∧
    deserializeRowFromPage
        (serializeRow [some (Value.text [97, 98, 99, 100])]) 0 1 ≠
      some [Value.text [97, 98, 99, 100]] := by
  refine ⟨by decide, by decide, by decide⟩

/-- C2, counterexample.  With the one-column schema (`row_size = 24`,
which does not divide `PAGE_SIZE = 4096`), the distinct row indices 0 and
170 are both placed at page 0, byte offset 0 — the mapping is not
injective — and the byte offset of row 170 is 0, not
`(170 * row_size) mod PAGE_SIZE = 4080` as the claim states. -/
theorem rowMapping_collision :
    rowSize ["a"] = 24 ∧
    (0 : Nat) ≠ 170 ∧
    rowPageNum (rowSize ["a"]) 170 = rowPageNum (rowSize ["a"]) 0 ∧
    rowByteOffset (rowSize ["a"]) 170 = rowByteOffset (rowSize ["a"]) 0 ∧
    rowByteOffset (rowSize ["a"]) 170 ≠ 170 * rowSize ["a"] % PAGE_SIZE := by
  refine ⟨by decide, by decide, by decide, by decide, by decide⟩

/-- C2, amended.  The page index of row `i` is `i * row_size / PAGE_SIZE`
as claimed, but the byte offset is `(i mod (PAGE_SIZE / row_size)) *
row_size`, which agrees with the claimed `(i * row_size) mod PAGE_SIZE`
only while `i < PAGE_SIZE / row_size`; a row's slot never crosses the
`PAGE_SIZE` boundary (`byte_offset + row_size ≤ PAGE_SIZE`), but the
mapping is not injective when `row_size` does not divide `PAGE_SIZE`
(see the counterexample). -/
theorem rowMapping_spec (rs i : Nat) (hpos : 0 < rs)
    (hle : rs ≤ PAGE_SIZE) :
    rowPageNum rs i = i * rs / PAGE_SIZE ∧
    rowByteOffset rs i + rs ≤ PAGE_SIZE ∧
    (i < PAGE_SIZE / rs → rowByteOffset rs i = i * rs % PAGE_SIZE) := by
  have hq : 0 < PAGE_SIZE / rs := Nat.div_pos hle hpos
  refine ⟨rfl, ?_, ?_⟩
  · have hmod : i % (PAGE_SIZE / rs) < PAGE_SIZE / rs :=
      Nat.mod_lt _ hq
    have h1 : (i % (PAGE_SIZE / rs) + 1) * rs ≤ PAGE_SIZE / rs * rs :=
      Nat.mul_le_mul_right rs hmod
    have h2 : PAGE_SIZE / rs * rs ≤ PAGE_SIZE := Nat.div_mul_le_self _ _
    calc rowByteOffset rs i + rs = (i % (PAGE_SIZE / rs) + 1) * rs := by
          rw [rowByteOffset]; ring
      _ ≤ PAGE_SIZE := le_trans h1 h2
  · intro hi
    have hmod : i % (PAGE_SIZE / rs) = i := Nat.mod_eq_of_lt hi
    have h1 : (i + 1) * rs ≤ PAGE_SIZE / rs * rs :=
      Nat.mul_le_mul_right rs hi
    have h2 : PAGE_SIZE / rs * rs ≤ PAGE_SIZE := Nat.div_mul_le_self _ _
    have hlt : i * rs < PAGE_SIZE := by
      have := le_trans h1 h2
      nlinarith
    rw [rowByteOffset, hmod, Nat.mod_eq_of_lt hlt]

/-- C2, witness for `rowMapping_spec` at `row_size = rowSize ["a"]` and
row index 3. -/
theorem rowMapping_spec_witness :
    0 < rowSize ["a"] ∧ rowSize ["a"] ≤ PAGE_SIZE ∧
    (rowPageNum (rowSize ["a"]) 3 = 3 * rowSize ["a"] / PAGE_SIZE ∧
     rowByteOffset (rowSize ["a"]) 3 + rowSize ["a"] ≤ PAGE_SIZE ∧
     (3 < PAGE_SIZE / rowSize ["a"] →
       rowByteOffset (rowSize ["a"]) 3 = 3 * rowSize ["a"] % PAGE_SIZE)) :=
  ⟨by decide, by decide,
    rowMapping_spec (rowSize ["a"]) 3 (by decide) (by decide)⟩

/-- C6, counterexample.  The length of the encoding is not a constant of
the schema: for the one-column schema, the empty text encodes to 4 bytes
and a one-byte text to 5 bytes, while the schema row size used for slot
placement (`Table::row_size`) is 24. -/
theorem serializeRow_length_not_constant :
    (serializeRow [some (Value.text [])]).length = 4 ∧
    (serializeRow [some (Value.text [120])]).length = 5 ∧
    rowSize ["a"] = 24 := by
  refine ⟨by decide, by decide, by decide⟩

/-- C6, amended.  `serialize_row` produces 8 bytes for every integer or
missing column value and `4 + len(s)` bytes for a text value `s` — the
text slot is the value's own length after the 4-byte prefix, not a fixed
maximum — so the buffer length varies with the row's text values and does
not in general equal `Table::row_size` (24 bytes per column). -/
theorem serializeRow_length (row : List (Option Value)) :
    (serializeRow row).length =
      (row.map fun v =>
        match v with
        | some (Value.text s) => 4 + s.length
        | _ => 8).sum := by
  induction row with
  | nil => rfl
  | cons v rest ih =>
    show (serializeValue v ++ (rest.map serializeValue).flatten).length = _
    rw [List.length_append]
    have hv : (serializeValue v).length =
        match v with
        | some (Value.text s) => 4 + s.length
        | _ => 8 := by
      match v with
      | none => rfl
      | some (Value.integer i) =>
        simp [serializeValue, i64ToLe, natToLe_length]
      | some (Value.text s) =>
        simp [serializeValue, natToLe_length]
    rw [hv, List.map_cons, List.sum_cons]
    exact congrArg _ ih

/-- C8, counterexample.  An 8-byte buffer whose 4-byte length prefix
declares 200 bytes of text — far past the end of the buffer — is not
rejected: `deserialize_value` returns the integer value 200 read from the
first 8 bytes.  A 4-byte buffer whose prefix declares 5 bytes makes the
slice `&buffer[4..4 + len]` panic (modelled by `none`).  In neither case
is a `CorruptRow` error returned; no such error exists in the code. -/
theorem deserializeValue_no_corruptRow :
    deserializeValue [200, 0, 0, 0, 0, 0, 0, 0] = some (Value.integer 200) ∧
    deserializeValue [5, 0, 0, 0] = none := by
  refine ⟨by decide, by decide⟩

/-- C8, amended.  `deserialize_value` never returns an error value: any
buffer of at least 8 bytes is decoded as an integer, whatever its
contents; and a buffer shorter than 8 bytes whose length prefix declares a
length reaching past the end makes the slice `&buffer[4..4 + len]` panic
(modelled by `none`) instead of returning a `CorruptRow` error. -/
theorem deserializeValue_overrun (buffer : List Nat) :
    (8 ≤ buffer.length →
      deserializeValue buffer =
        some (Value.integer (toI64 (leToNat (buffer.take 8))))) ∧
    (buffer.length < 8 → 4 ≤ buffer.length →
      buffer.length < 4 + leToNat (buffer.take 4) →
      deserializeValue buffer = none) := by
  constructor
  · intro h8
    simp [deserializeValue, h8]
  · intro h8 h4 hpast
    rw [deserializeValue]
    rw [if_neg (by omega), if_neg (by omega), if_neg (by omega)]

/-- C8, witness for `deserializeValue_overrun` at the two buffers of
the counterexample. -/
theorem deserializeValue_overrun_witness :
    (8 ≤ ([200, 0, 0, 0, 0, 0, 0, 0] : List Nat).length ∧
      deserializeValue [200, 0, 0, 0, 0, 0, 0, 0] =
        some (Value.integer (toI64 (leToNat (([200, 0, 0, 0, 0, 0, 0, 0] :
          List Nat).take 8))))) ∧
    (([5, 0, 0, 0] : List Nat).length < 8 ∧
      4 ≤ ([5, 0, 0, 0] : List Nat).length ∧
      ([5, 0, 0, 0] : List Nat).length <
        4 + leToNat (([5, 0, 0, 0] : List Nat).take 4) ∧
      deserializeValue [5, 0, 0, 0] = none) :=
  ⟨⟨by decide, (deserializeValue_overrun _).1 (by decide)⟩,
    ⟨by decide, by decide, by decide,
      (deserializeValue_overrun _).2 (by decide) (by decide) (by decide)⟩⟩

/-- C3, counterexample.  The claim's row ceiling is
`rows_per_page * page_capacity` with `rows_per_page = PAGE_SIZE /
row_size`; with the program's `Table::row_size` for the one-column schema
this is `(4096 / 24) * 100 = 17000`.  Starting from an empty table,
17000 inserts succeed — and so does the next one: after 17001 inserts the
table holds 17001 rows and no error (let alone a `TableFull` error, which
does not exist in the code) was returned.  Insert number `n` targets page
`n * 8 / 4096` (8 is the serialized size of the integer row), so inserts
only start failing at `num_rows = 51200`, and then with the pager's
page-out-of-bounds error. -/
theorem insert_past_claimed_ceiling_succeeds :
    PAGE_SIZE / rowSize ["a"] * TABLE_MAX_PAGES = 17000 ∧
    ∃ t, insertN 17001 = .ok t ∧ t.numRows = 17001 := by
  refine ⟨by decide, ?_⟩
  obtain ⟨t, h1, h2, _, _⟩ := insertN_ok 17001 (by omega)
  exact ⟨t, h1, h2⟩

/-- C3, amended.  `Table::insert` performs no explicit row-ceiling check:
it fails exactly when the target page index `num_rows * serialized_size /
PAGE_SIZE` reaches `TABLE_MAX_PAGES`, and then with the pager's
page-out-of-bounds error (`InvalidInput`), not a distinct `TableFull`
error; in that case nothing is written and `num_rows` is unchanged (the
failure happens before any state mutation), while below the page ceiling
the insert succeeds and increments `num_rows` by one.  The effective row
ceiling is `TABLE_MAX_PAGES * PAGE_SIZE / serialized_row_size`, derived
from the row's own serialized size, not from `Table::row_size`. -/
theorem insert_capacity (t : Table) (row : List (Option Value))
    (hpages : t.pager.pages.length = TABLE_MAX_PAGES)
    (hsync : t.pager.file.length = t.pager.fileLength)
    (hpos : 0 < (serializeRow row).length)
    (hle : (serializeRow row).length ≤ PAGE_SIZE) :
    (TABLE_MAX_PAGES ≤ rowPageNum (serializeRow row).length t.numRows →
      insert t row = .error .pageOutOfBounds) ∧
    (rowPageNum (serializeRow row).length t.numRows < TABLE_MAX_PAGES →
      ∃ t2, insert t row = .ok t2 ∧ t2.numRows = t.numRows + 1) := by
  constructor
  · intro hoob
    have hdiv : 0 < PAGE_SIZE / (serializeRow row).length := Nat.div_pos hle hpos
    rw [insert, if_neg (by omega), getPage_oob hoob]
  · intro hlt
    obtain ⟨t2, h1, h2, _, _, _⟩ := insert_ok hpages hsync hpos hle hlt
    exact ⟨t2, h1, h2⟩

/-- C3, witness for `insert_capacity` at the fresh one-column table and an
integer row. -/
theorem insert_capacity_witness :
    (Table.new [] ["a"]).pager.pages.length = TABLE_MAX_PAGES ∧
    (Table.new [] ["a"]).pager.file.length =
      (Table.new [] ["a"]).pager.fileLength ∧
    0 < (serializeRow intRowOne).length ∧
    (serializeRow intRowOne).length ≤ PAGE_SIZE ∧
    ((TABLE_MAX_PAGES ≤
        rowPageNum (serializeRow intRowOne).length (Table.new [] ["a"]).numRows →
      insert (Table.new [] ["a"]) intRowOne = .error .pageOutOfBounds) ∧
     (rowPageNum (serializeRow intRowOne).length (Table.new [] ["a"]).numRows <
        TABLE_MAX_PAGES →
      ∃ t2, insert (Table.new [] ["a"]) intRowOne = .ok t2 ∧
        t2.numRows = (Table.new [] ["a"]).numRows + 1)) :=
  ⟨by decide, by decide, by decide, by decide,
    insert_capacity _ _ (by decide) (by decide) (by decide) (by decide)⟩

/-- C5, counterexample.  The spec's scenario gives the text column a slot
capacity of 32 bytes; inserting a 33-byte text value into a fresh
one-column table nevertheless succeeds and increments `num_rows` from 0
to 1 — there is no length validation and no `ValueTooLarge` error
anywhere in the code. -/
theorem insert_oversized_text_not_rejected :
    ∃ t2, insert (Table.new [] ["a"])
        [some (Value.text (List.replicate 33 97))] = .ok t2 ∧
      t2.numRows = 1 := by
  obtain ⟨t2, h1, h2, _, _, _⟩ := @insert_ok (Table.new [] ["a"])
    [some (Value.text (List.replicate 33 97))]
    (by decide) (by decide) (by decide) (by decide) (by decide)
  exact ⟨t2, h1, by rw [h2]; rfl⟩

/-- C5, amended.  `Table::insert` never validates text length: a row
carrying a text value of any length (as long as the serialized row fits in
a page and the target page index is in bounds) is serialized — 4-byte
length prefix plus all of the value's bytes — written, and `num_rows` is
incremented.  No `ValueTooLarge` error exists in the code. -/
theorem insert_no_valueTooLarge (t : Table) (s : List Nat)
    (hpages : t.pager.pages.length = TABLE_MAX_PAGES)
    (hsync : t.pager.file.length = t.pager.fileLength)
    (hfit : 4 + s.length ≤ PAGE_SIZE)
    (hpage : rowPageNum (4 + s.length) t.numRows < TABLE_MAX_PAGES) :
    ∃ t2, insert t [some (Value.text s)] = .ok t2 ∧
      t2.numRows = t.numRows + 1 := by
  have hlen : (serializeRow [some (Value.text s)]).length = 4 + s.length := by
    simp [serializeRow, serializeValue, natToLe_length]
  obtain ⟨t2, h1, h2, _, _, _⟩ := insert_ok hpages hsync
    (by rw [hlen]; omega) (by rw [hlen]; exact hfit) (by rw [hlen]; exact hpage)
  exact ⟨t2, h1, h2⟩

/-- C5, witness for `insert_no_valueTooLarge` at the fresh one-column
table and a 33-byte text value. -/
theorem insert_no_valueTooLarge_witness :
    (Table.new [] ["a"]).pager.pages.length = TABLE_MAX_PAGES ∧
    (Table.new [] ["a"]).pager.file.length =
      (Table.new [] ["a"]).pager.fileLength ∧
    4 + (List.replicate 33 97).length ≤ PAGE_SIZE ∧
    rowPageNum (4 + (List.replicate 33 97).length)
      (Table.new [] ["a"]).numRows < TABLE_MAX_PAGES ∧
    ∃ t2, insert (Table.new [] ["a"])
        [some (Value.text (List.replicate 33 97))] = .ok t2 ∧
      t2.numRows = (Table.new [] ["a"]).numRows + 1 :=
  ⟨by decide, by decide, by decide, by decide,
    insert_no_valueTooLarge _ _ (by decide) (by decide) (by decide) (by decide)⟩

/-- The table state reached by probing row 0 of a freshly opened table on
an empty file: the all-zero page 0 has been loaded into the cache and
nothing else changed. -/
def emptyLoadedTable : Table :=
  { pager :=
      { file := []
        pages := (List.replicate TABLE_MAX_PAGES (none : Option (List Nat))).set 0
          (some (List.replicate PAGE_SIZE 0))
        fileLength := 0 }
    numRows := 0
    columns := ["a"] }

theorem deserializeRowFromPage_single (page : List Nat) (h8 : 8 ≤ page.length) :
    deserializeRowFromPage page 0 1 =
      some [Value.integer (toI64 (leToNat (page.take 8)))] := by
  have hval : deserializeValue page =
      some (Value.integer (toI64 (leToNat (page.take 8)))) := by
    rw [deserializeValue, if_pos h8]
  rw [deserializeRowFromPage, deserializeFrom]
  simp only [Nat.zero_mul, Nat.add_zero, List.drop_zero]
  rw [if_pos (by omega), hval]
  rfl

/-- C4, counterexample.  `Table::row_slot` never compares the row index
with `num_rows`: on a freshly opened empty table (`num_rows = 0`),
`row_slot(0)` — an index `≥ num_rows`, the claim's `row_at(num_rows)`
boundary case — does not return `None`; it zero-initializes page 0 and
returns the decoded all-zero row `Some {a: Integer 0}`. -/
theorem rowSlot_not_none_past_end :
    (Table.new [] ["a"]).numRows = 0 ∧
    rowSlot (Table.new [] ["a"]) 0 =
      .ok (some [Value.integer 0], emptyLoadedTable) := by
  refine ⟨rfl, ?_⟩
  have hget : getPage (Table.new [] ["a"]).pager
      (rowPageNum (rowSize (Table.new [] ["a"]).columns) 0) =
      .ok (List.replicate PAGE_SIZE 0, emptyLoadedTable.pager) := rfl
  have h0 : ¬(PAGE_SIZE / rowSize (Table.new [] ["a"]).columns = 0) := by decide
  have hoff : ¬((PAGE_SIZE : Nat) ≤
      rowByteOffset (rowSize (Table.new [] ["a"]).columns) 0) := by decide
  have hbo : rowByteOffset (rowSize (Table.new [] ["a"]).columns) 0 = 0 := rfl
  have hcols : (Table.new [] ["a"]).columns.length = 1 := rfl
  have hdec : deserializeRowFromPage (List.replicate PAGE_SIZE 0)
      (rowByteOffset (rowSize (Table.new [] ["a"]).columns) 0)
      (Table.new [] ["a"]).columns.length = some [Value.integer 0] := by
    rw [hbo, hcols,
      deserializeRowFromPage_single _ (by rw [List.length_replicate]; decide),
      List.take_replicate]
    decide
  rw [rowSlot, if_neg h0]
  simp only [hget, List.length_replicate, hoff, if_false, hdec]
  rfl

/-- C4, amended.  `row_slot(i)` returns `None` exactly when the computed
byte offset falls at or past the end of the in-memory page buffer — a
condition unrelated to `i ≥ num_rows` in general (see the counterexample;
and `row_at(num_rows - 1)` returns whatever decodes at the schema-stride
offset, which need not be the last inserted row).  `row_slot` never
mutates the backing file or the recorded file length; it only populates
the page cache. -/
theorem rowSlot_spec (t : Table) (i : Nat) (page : List Nat) (pager2 : Pager)
    (hdiv : 0 < PAGE_SIZE / rowSize t.columns)
    (hget : getPage t.pager (rowPageNum (rowSize t.columns) i) =
      .ok (page, pager2)) :
    (rowSlot t i = .ok (none, { t with pager := pager2 }) ↔
      page.length ≤ rowByteOffset (rowSize t.columns) i) ∧
    (∀ r t2, rowSlot t i = .ok (r, t2) →
      t2.pager.file = t.pager.file ∧
      t2.pager.fileLength = t.pager.fileLength) := by
  have hfile := (getPage_preserves hget).1
  have hflen := (getPage_preserves hget).2.1
  rw [rowSlot, if_neg (by omega)]
  simp only [hget]
  by_cases hoff : page.length ≤ rowByteOffset (rowSize t.columns) i
  · rw [if_pos hoff]
    refine ⟨⟨fun _ => hoff, fun _ => rfl⟩, ?_⟩
    rintro r t2 h
    injection h with h2
    injection h2 with hr ht
    subst ht
    exact ⟨hfile, hflen⟩
  · rw [if_neg hoff]
    cases hdes : deserializeRowFromPage page
        (rowByteOffset (rowSize t.columns) i) t.columns.length with
    | none =>
      refine ⟨⟨fun h => ?_, fun h => absurd h hoff⟩, ?_⟩
      · exact absurd h (by simp)
      · rintro r t2 h
        exact absurd h (by simp)
    | some vals =>
      refine ⟨⟨fun h => ?_, fun h => absurd h hoff⟩, ?_⟩
      · injection h with h2
        injection h2 with hr ht
        exact absurd hr (by simp)
      · rintro r t2 h
        injection h with h2
        injection h2 with hr ht
        subst ht
        exact ⟨hfile, hflen⟩

/-- C4, witness for `rowSlot_spec` at the freshly opened empty one-column
table and row index 0. -/
theorem rowSlot_spec_witness :
    0 < PAGE_SIZE / rowSize (Table.new [] ["a"]).columns ∧
    getPage (Table.new [] ["a"]).pager
      (rowPageNum (rowSize (Table.new [] ["a"]).columns) 0) =
      .ok (List.replicate PAGE_SIZE 0, emptyLoadedTable.pager) ∧
    ((rowSlot (Table.new [] ["a"]) 0 =
        .ok (none, { Table.new [] ["a"] with pager := emptyLoadedTable.pager }) ↔
      (List.replicate PAGE_SIZE 0).length ≤
        rowByteOffset (rowSize (Table.new [] ["a"]).columns) 0) ∧
     (∀ r t2, rowSlot (Table.new [] ["a"]) 0 = .ok (r, t2) →
        t2.pager.file = (Table.new [] ["a"]).pager.file ∧
        t2.pager.fileLength = (Table.new [] ["a"]).pager.fileLength)) :=
  ⟨by decide, rfl, rowSlot_spec _ 0 _ _ (by decide) rfl⟩

theorem flushP_unfold {pager : Pager} {pageNum size : Nat} {page : List Nat}
    (hidx : pageNum < pager.pages.length)
    (hres : pager.pages.getD pageNum none = some page)
    (hsz : size ≤ page.length)
    (hext : pager.fileLength < pageNum * PAGE_SIZE + size) :
    flushP pager pageNum size = .ok
      { pager with
        file := setLen (writeAt pager.file (pageNum * PAGE_SIZE) (page.take size))
          (pageNum * PAGE_SIZE + size)
        fileLength := pageNum * PAGE_SIZE + size } := by
  rw [flushP, if_neg (by omega)]
  simp only [hres]
  rw [if_neg (by omega : ¬page.length < size), if_pos hext]

theorem insert_unfold {t : Table} {row : List (Option Value)} {page : List Nat}
    {pager1 : Pager}
    (h0 : ¬(PAGE_SIZE / (serializeRow row).length = 0))
    (hget : getPage t.pager (rowPageNum (serializeRow row).length t.numRows) =
      .ok (page, pager1))
    (hidx : rowPageNum (serializeRow row).length t.numRows < pager1.pages.length)
    (hext : pager1.fileLength <
      rowPageNum (serializeRow row).length t.numRows * PAGE_SIZE +
        (rowByteOffset (serializeRow row).length t.numRows +
          (serializeRow row).length)) :
    insert t row = .ok
      { pager :=
          { file := setLen
              (writeAt pager1.file
                (rowPageNum (serializeRow row).length t.numRows * PAGE_SIZE)
                ((insertIntoPage page
                    (rowByteOffset (serializeRow row).length t.numRows)
                    (serializeRow row)).take
                  (rowByteOffset (serializeRow row).length t.numRows +
                    (serializeRow row).length)))
              (rowPageNum (serializeRow row).length t.numRows * PAGE_SIZE +
                (rowByteOffset (serializeRow row).length t.numRows +
                  (serializeRow row).length))
            pages := pager1.pages.set
              (rowPageNum (serializeRow row).length t.numRows)
              (some (insertIntoPage page
                (rowByteOffset (serializeRow row).length t.numRows)
                (serializeRow row)))
            fileLength := rowPageNum (serializeRow row).length t.numRows *
                PAGE_SIZE +
              (rowByteOffset (serializeRow row).length t.numRows +
                (serializeRow row).length) }
        numRows := t.numRows + 1
        columns := t.columns } := by
  rw [insert, if_neg h0]
  simp only [hget]
  have hres : (pager1.pages.set (rowPageNum (serializeRow row).length t.numRows)
      (some (insertIntoPage page
        (rowByteOffset (serializeRow row).length t.numRows)
        (serializeRow row)))).getD
      (rowPageNum (serializeRow row).length t.numRows) none =
      some (insertIntoPage page
        (rowByteOffset (serializeRow row).length t.numRows) (serializeRow row)) := by
    have := List.getElem?_set_eq_of_lt (some (insertIntoPage page
      (rowByteOffset (serializeRow row).length t.numRows) (serializeRow row)))
      (l := pager1.pages) (n := rowPageNum (serializeRow row).length t.numRows) hidx
    simp [List.getD, this]
  rw [@flushP_unfold { pager1 with
      pages := pager1.pages.set (rowPageNum (serializeRow row).length t.numRows)
        (some (insertIntoPage page
          (rowByteOffset (serializeRow row).length t.numRows)
          (serializeRow row))) }
    (rowPageNum (serializeRow row).length t.numRows)
    (rowByteOffset (serializeRow row).length t.numRows + (serializeRow row).length)
    (insertIntoPage page (rowByteOffset (serializeRow row).length t.numRows)
      (serializeRow row))
    (by simp only [List.length_set]; omega) hres
    (by rw [insertIntoPage_length]; exact le_max_right _ _) hext]

/-- Serialized bytes of the row `{a: Integer 1}`. -/
def bytesOne : List Nat := [1, 0, 0, 0, 0, 0, 0, 0]

/-- Serialized bytes of the row `{a: Integer 2}`. -/
def bytesTwo : List Nat := [2, 0, 0, 0, 0, 0, 0, 0]

/-- One-column row `{a: Integer 2}`. -/
def rowTwo : List (Option Value) := [some (Value.integer 2)]

/-- Fresh page cache of `Pager::new`. -/
def pagesT0 : List (Option (List Nat)) := List.replicate TABLE_MAX_PAGES none

/-- Page 0 after the first insert: the 8 bytes of row one, then zeros. -/
def pageA : List Nat := bytesOne ++ List.replicate 4088 0

/-- Page 0 after the second insert. -/
def pageB : List Nat := bytesOne ++ (bytesTwo ++ List.replicate 4080 0)

/-- Bytes of the backing file after `Table::close`: the two 8-byte rows
followed by the 32 zero bytes that pad the flush to
`additional_rows * row_size = 2 * 24 = 48` bytes. -/
def fileD : List Nat := bytesOne ++ (bytesTwo ++ List.replicate 32 0)

/-- Page cache after the first insert. -/
def pagesT1 : List (Option (List Nat)) :=
  (pagesT0.set 0 (some (List.replicate PAGE_SIZE 0))).set 0 (some pageA)

/-- Table state after the first insert. -/
def tableT1 : Table := ⟨⟨bytesOne, pagesT1, 8⟩, 1, ["a"]⟩

/-- Page cache after the second insert. -/
def pagesT2 : List (Option (List Nat)) := pagesT1.set 0 (some pageB)

/-- Table state after the second insert. -/
def tableT2 : Table := ⟨⟨bytesOne ++ bytesTwo, pagesT2, 16⟩, 2, ["a"]⟩

/-- Table state after `Table::close`. -/
def tableT3 : Table := ⟨⟨fileD, pagesT2, 48⟩, 2, ["a"]⟩

/-- Table state after scanning the reopened table: page 0 (the 48 file
bytes) loaded into the fresh cache. -/
def tableT5 : Table := ⟨⟨fileD, pagesT0.set 0 (some fileD), 48⟩, 2, ["a"]⟩

theorem serializeRow_intRowOne_eq : serializeRow intRowOne = bytesOne := by decide

theorem serializeRow_rowTwo_eq : serializeRow rowTwo = bytesTwo := by decide

theorem pageA_take_eight : pageA.take 8 = bytesOne := by
  simp only [pageA, List.take_append_eq_append_take,
    show bytesOne.take 8 = bytesOne from by decide,
    show (8 : Nat) - bytesOne.length = 0 from by decide,
    List.take_zero, List.append_nil]

theorem insertFirst_eq : insert (Table.new [] ["a"]) intRowOne = .ok tableT1 := by
  have hget : getPage (Table.new [] ["a"]).pager
      (rowPageNum (serializeRow intRowOne).length (Table.new [] ["a"]).numRows) =
      .ok (List.replicate PAGE_SIZE 0,
        { file := []
          pages := pagesT0.set 0 (some (List.replicate PAGE_SIZE 0))
          fileLength := 0 }) := rfl
  rw [insert_unfold (by decide) hget (by decide) (by decide)]
  simp only [serializeRow_intRowOne_eq,
    show bytesOne.length = 8 from rfl,
    show (Table.new [] ["a"]).numRows = 0 from rfl,
    show rowPageNum 8 0 = 0 from rfl,
    show rowByteOffset 8 0 = 0 from rfl,
    Nat.zero_mul, Nat.zero_add]
  have hpg : insertIntoPage (List.replicate PAGE_SIZE 0) 0 bytesOne = pageA := by
    rw [insertIntoPage, resizeTo,
      if_neg (by rw [List.length_replicate]; decide), spliceAt]
    simp only [List.take_zero, List.nil_append, List.drop_replicate, pageA,
      show PAGE_SIZE - (0 + bytesOne.length) = 4088 from by decide]
  rw [hpg, pageA_take_eight]
  rfl

theorem insertSecond_eq : insert tableT1 rowTwo = .ok tableT2 := by
  have hget : getPage tableT1.pager
      (rowPageNum (serializeRow rowTwo).length tableT1.numRows) =
      .ok (pageA, tableT1.pager) := rfl
  rw [insert_unfold (by decide) hget (by decide) (by decide)]
  simp only [serializeRow_rowTwo_eq,
    show bytesTwo.length = 8 from rfl,
    show tableT1.numRows = 1 from rfl,
    show rowPageNum 8 1 = 0 from rfl,
    show rowByteOffset 8 1 = 8 from rfl,
    Nat.zero_mul, Nat.zero_add]
  have hpglen : pageA.length = 4096 := by
    simp only [pageA, List.length_append, List.length_replicate]
    decide
  have hpg : insertIntoPage pageA 8 bytesTwo = pageB := by
    rw [insertIntoPage, resizeTo,
      if_neg (by rw [hpglen]; decide), spliceAt, pageA_take_eight]
    have hdr : pageA.drop (8 + bytesTwo.length) = List.replicate 4080 0 := by
      simp only [pageA, List.drop_append_eq_append_drop, List.drop_replicate,
        show bytesOne.drop (8 + bytesTwo.length) = [] from by decide,
        show 4088 - (8 + bytesTwo.length - bytesOne.length) = 4080 from by decide,
        List.nil_append]
    rw [hdr]
    rfl
  rw [hpg]
  have htk : pageB.take (8 + 8) = bytesOne ++ bytesTwo := by
    rw [show pageB = bytesOne ++ (bytesTwo ++ List.replicate 4080 0) from rfl,
      List.take_append_eq_append_take,
      show bytesOne.take (8 + 8) = bytesOne from by decide,
      show (8 + 8 : Nat) - bytesOne.length = 8 from by decide,
      List.take_append_eq_append_take,
      show bytesTwo.take 8 = bytesTwo from by decide,
      show (8 : Nat) - bytesTwo.length = 0 from by decide,
      List.take_zero, List.append_nil]
  rw [htk]
  rfl

theorem closeSecond_eq : closeTable tableT2 = (none, tableT3) := by
  have hsz : (48 : Nat) ≤ pageB.length := by
    have : pageB.length = 4096 := by
      simp only [pageB, List.length_append, List.length_replicate]
      decide
    omega
  have hflush : flushP tableT2.pager 0 48 = .ok
      { tableT2.pager with
        file := setLen (writeAt tableT2.pager.file (0 * PAGE_SIZE)
          (pageB.take 48)) (0 * PAGE_SIZE + 48)
        fileLength := 0 * PAGE_SIZE + 48 } :=
    flushP_unfold (by decide) rfl hsz (by decide)
  have htk : pageB.take 48 = fileD := by
    rw [show pageB = bytesOne ++ (bytesTwo ++ List.replicate 4080 0) from rfl,
      List.take_append_eq_append_take,
      show bytesOne.take 48 = bytesOne from by decide,
      show (48 : Nat) - bytesOne.length = 40 from by decide,
      List.take_append_eq_append_take,
      show bytesTwo.take 40 = bytesTwo from by decide,
      show (40 : Nat) - bytesTwo.length = 32 from by decide,
      List.take_replicate, show min 32 4080 = 32 from by decide]
    rfl
  rw [closeTable,
    show List.range (tableT2.numRows * rowSize tableT2.columns / PAGE_SIZE) =
      [] from rfl]
  simp only [flushFullPages]
  rw [if_neg (by decide : ¬(PAGE_SIZE / rowSize tableT2.columns = 0)),
    if_neg (by decide :
      ¬(tableT2.numRows % (PAGE_SIZE / rowSize tableT2.columns) = 0)),
    if_neg (by decide : ¬(tableT2.pager.pages.length ≤
      tableT2.numRows * rowSize tableT2.columns / PAGE_SIZE)),
    show (tableT2.numRows * rowSize tableT2.columns / PAGE_SIZE) = 0 from rfl,
    show (tableT2.numRows % (PAGE_SIZE / rowSize tableT2.columns) *
      rowSize tableT2.columns) = 48 from rfl,
    show tableT2.pager.pages.getD 0 none = some pageB from rfl, hflush, htk]
  rfl

theorem scanReopened_eq : scan (Table.new fileD ["a"]) =
    .ok ([[Value.integer 1], [Value.integer 0]], tableT5) := by decide

/-- C7.  Persistence fails on the code: inserting the rows `{a: Integer 1}`
and `{a: Integer 2}` into a fresh table, closing it (which flushes
`2 * row_size = 48` bytes and leaves a 48-byte file), reopening the same
file with the same schema and scanning yields `{a: Integer 1}` then
`{a: Integer 0}` — not the two inserted rows.  The inserts packed the rows
at 8-byte offsets (their serialized size) while `close` and the reopened
scan use the 24-byte schema row size, so row index 1 is decoded from bytes
24..32, which are zero padding. -/
theorem persistence_scan_wrong :
    insert (Table.new [] ["a"]) intRowOne = .ok tableT1 ∧
    insert tableT1 rowTwo = .ok tableT2 ∧
    closeTable tableT2 = (none, tableT3) ∧
    scan (Table.new tableT3.pager.file ["a"]) =
      .ok ([[Value.integer 1], [Value.integer 0]], tableT5) ∧
    [[Value.integer 1], [Value.integer 0]] ≠
      [[Value.integer 1], [Value.integer 2]] :=
  ⟨insertFirst_eq, insertSecond_eq, closeSecond_eq, scanReopened_eq, by decide⟩

theorem cursorReach_end_iff {n : Nat} {c : CursorState} (h : CursorReach n c) :
    c.endOfTable = true ↔ n ≤ c.rowNum := by
  induction h with
  | start =>
    show (n == 0) = true ↔ n ≤ 0
    simp [Nat.le_zero]
  | @step c0 h0 ih =>
    show (if n ≤ c0.rowNum + 1 then true else c0.endOfTable) = true ↔
      n ≤ c0.rowNum + 1
    by_cases hle : n ≤ c0.rowNum + 1
    · simp [hle]
    · rw [if_neg hle]
      constructor
      · intro he
        exact absurd (Nat.le_succ_of_le (ih.1 he)) hle
      · intro h2
        exact absurd h2 hle

/-- C9.  The cursor state machine: a fresh cursor is `Active(0)` when
`num_rows > 0` and immediately at end otherwise; `advance` increments the
row index (so no transition decreases it); every state reachable from
`table_start` is at end exactly when `row_index ≥ num_rows`; and `value`
returns `None` at end and otherwise the decoded row at the current index
(`row_slot(row_index)`). -/
theorem cursor_spec (t : Table) (c : CursorState)
    (hreach : CursorReach t.numRows c) :
    ((cursorStart t).rowNum = 0 ∧
      ((cursorStart t).endOfTable = true ↔ t.numRows = 0)) ∧
    (c.endOfTable = true ↔ t.numRows ≤ c.rowNum) ∧
    (cursorAdvance t.numRows c).rowNum = c.rowNum + 1 ∧
    c.rowNum ≤ (cursorAdvance t.numRows c).rowNum ∧
    (c.endOfTable = true → cursorValue c t = .ok (none, t)) ∧
    (c.endOfTable = false → cursorValue c t = rowSlot t c.rowNum) := by
  refine ⟨⟨rfl, by simp [cursorStart]⟩, cursorReach_end_iff hreach, rfl,
    Nat.le_succ _, ?_, ?_⟩
  · intro he
    rw [cursorValue, if_pos he]
  · intro he
    rw [cursorValue, if_neg (by simp [he])]

/-- C9, witness for `cursor_spec` on the empty one-column table and its
start state (which is immediately at end). -/
theorem cursor_spec_witness :
    CursorReach (Table.new [] ["a"]).numRows { rowNum := 0, endOfTable := true } ∧
    (((cursorStart (Table.new [] ["a"])).rowNum = 0 ∧
      ((cursorStart (Table.new [] ["a"])).endOfTable = true ↔
        (Table.new [] ["a"]).numRows = 0)) ∧
    (({ rowNum := 0, endOfTable := true } : CursorState).endOfTable = true ↔
      (Table.new [] ["a"]).numRows ≤
        ({ rowNum := 0, endOfTable := true } : CursorState).rowNum) ∧
    (cursorAdvance (Table.new [] ["a"]).numRows
      { rowNum := 0, endOfTable := true }).rowNum =
      ({ rowNum := 0, endOfTable := true } : CursorState).rowNum + 1 ∧
    ({ rowNum := 0, endOfTable := true } : CursorState).rowNum ≤
      (cursorAdvance (Table.new [] ["a"]).numRows
        { rowNum := 0, endOfTable := true }).rowNum ∧
    (({ rowNum := 0, endOfTable := true } : CursorState).endOfTable = true →
      cursorValue { rowNum := 0, endOfTable := true } (Table.new [] ["a"]) =
        .ok (none, Table.new [] ["a"])) ∧
    (({ rowNum := 0, endOfTable := true } : CursorState).endOfTable = false →
      cursorValue { rowNum := 0, endOfTable := true } (Table.new [] ["a"]) =
        rowSlot (Table.new [] ["a"])
          ({ rowNum := 0, endOfTable := true } : CursorState).rowNum)) :=
  ⟨CursorReach.start, cursor_spec (Table.new [] ["a"])
    { rowNum := 0, endOfTable := true } CursorReach.start⟩

/-- The storage-layer operations a `Table` and its `Pager` are driven by:
everything the program ever does to the backing file goes through these. -/
inductive DbOp where
  | getPageOp (pageNum : Nat)
  | flushOp (pageNum size : Nat)
  | insertOp (row : List (Option Value))
  | rowSlotOp (rowNum : Nat)
  | closeOp

/-- Result state of one operation on a table.  An operation that fails
leaves the table as it was (`get_page`, `flush`, `insert` and `row_slot`
never touch the file before their error point); `close` keeps the
partially flushed state it reached. -/
def applyOp (t : Table) : DbOp → Table
  | .getPageOp p =>
    match getPage t.pager p with
    | .error _ => t
    | .ok (_, pager2) => { t with pager := pager2 }
  | .flushOp p s =>
    match flushP t.pager p s with
    | .error _ => t
    | .ok pager2 => { t with pager := pager2 }
  | .insertOp row =>
    match insert t row with
    | .error _ => t
    | .ok t2 => t2
  | .rowSlotOp i =>
    match rowSlot t i with
    | .error _ => t
    | .ok (_, t2) => t2
  | .closeOp => (closeTable t).2

theorem insert_fileLength {t : Table} {row : List (Option Value)} {t2 : Table}
    (h : insert t row = .ok t2) :
    t.pager.fileLength ≤ t2.pager.fileLength := by
  rw [insert] at h
  split at h
  · exact absurd h (by simp)
  · split at h
    · exact absurd h (by simp)
    · next page pager1 hget =>
      split at h
      · exact absurd h (by simp)
      · next pager3 hflush =>
        injection h with h2
        subst h2
        have h1 := (getPage_preserves hget).2.1
        have h3 := (flushP_fileLength hflush).1
        simp only at h3 ⊢
        omega

theorem rowSlot_fileLength {t : Table} {i : Nat} {r : Option (List Value)}
    {t2 : Table} (h : rowSlot t i = .ok (r, t2)) :
    t.pager.fileLength ≤ t2.pager.fileLength := by
  rw [rowSlot] at h
  split at h
  · exact absurd h (by simp)
  · split at h
    · exact absurd h (by simp)
    · next page pager1 hget =>
      have h1 := (getPage_preserves hget).2.1
      split at h
      · obtain ⟨rfl, rfl⟩ := by simpa using h
        exact le_of_eq h1.symm
      · split at h
        · exact absurd h (by simp)
        · obtain ⟨rfl, rfl⟩ := by simpa using h
          exact le_of_eq h1.symm

theorem flushFullPages_fileLength (l : List Nat) (pager : Pager) :
    pager.fileLength ≤ (flushFullPages pager l).2.fileLength := by
  induction l generalizing pager with
  | nil => exact le_refl _
  | cons i rest ih =>
    rw [flushFullPages]
    split
    · exact le_refl _
    · split
      · exact ih pager
      · split
        · next e heq =>
          exact le_refl _
        · next pager1 heq =>
          exact le_trans (flushP_fileLength heq).1 (ih pager1)

theorem closeTable_fileLength (t : Table) :
    t.pager.fileLength ≤ (closeTable t).2.pager.fileLength := by
  rw [closeTable]
  split
  · next e pager1 heq =>
    have := flushFullPages_fileLength
      (List.range (t.numRows * rowSize t.columns / PAGE_SIZE)) t.pager
    rw [heq] at this
    exact this
  · next pager1 heq =>
    have h1 := flushFullPages_fileLength
      (List.range (t.numRows * rowSize t.columns / PAGE_SIZE)) t.pager
    rw [heq] at h1
    simp only at h1
    split
    · exact h1
    · split
      · exact h1
      · split
        · exact h1
        · split
          · exact h1
          · split
            · exact h1
            · next pager2 heq2 =>
              exact le_trans h1 (le_trans (flushP_fileLength heq2).1 (le_refl _))

theorem applyOp_fileLength (t : Table) (op : DbOp) :
    t.pager.fileLength ≤ (applyOp t op).pager.fileLength := by
  cases op with
  | getPageOp p =>
    rw [applyOp]
    split
    · exact le_refl _
    · next page pager2 hget =>
      exact le_of_eq (getPage_preserves hget).2.1.symm
  | flushOp p s =>
    rw [applyOp]
    split
    · exact le_refl _
    · next pager2 hflush =>
      exact (flushP_fileLength hflush).1
  | insertOp row =>
    rw [applyOp]
    split
    · exact le_refl _
    · next t2 hins =>
      exact insert_fileLength hins
  | rowSlotOp i =>
    rw [applyOp]
    split
    · exact le_refl _
    · next r t2 hrs =>
      exact rowSlot_fileLength hrs
  | closeOp => exact closeTable_fileLength t

/-- C10.  The backing file never shrinks: across any sequence of storage
operations (`get_page`, `flush`, `insert`, row lookup, `close`) the
pager's recorded `file_length` is monotonically non-decreasing, and a
single `flush` either leaves `file_length` unchanged (page not resident,
panic, or a write that ends inside the file — `set_len` is called only
when the write ends past the current end) or sets it to
`max file_length (page_num * PAGE_SIZE + size)`, the end of the write. -/
theorem fileLength_monotone (t : Table) (ops : List DbOp) :
    t.pager.fileLength ≤ (ops.foldl applyOp t).pager.fileLength ∧
    ∀ pageNum size,
      (applyOp t (DbOp.flushOp pageNum size)).pager.fileLength =
          t.pager.fileLength ∨
        (applyOp t (DbOp.flushOp pageNum size)).pager.fileLength =
          max t.pager.fileLength (pageNum * PAGE_SIZE + size) := by
  constructor
  · induction ops generalizing t with
    | nil => exact le_refl _
    | cons op rest ih =>
      exact le_trans (applyOp_fileLength t op) (ih (applyOp t op))
  · intro pageNum size
    rw [applyOp]
    split
    · exact .inl rfl
    · next pager2 hflush =>
      rcases (flushP_fileLength hflush).2.2 with h | h
      · exact .inl h
      · exact .inr h

end BugDB
